import Mathlib

/-!
Verification of the point (de)serialization codec with subgroup validation
for the BLS12-381 G1/G2 curve adapters, together with the compute-offload
hook dispatch logic.

The development is a shallow embedding of the repository sources
(curves/bls12_381/src/curves/{g1,g2,mod}.rs).  Field elements are `ZMod p`
(resp. a quadratic extension `Fq2 p`), byte buffers are `List ℕ` of byte
values, and fallible operations return `Except` / `Option`.  Generic
definitions are parameterized by the field modulus `p`; the BLS12-381
instantiation uses the concrete 381-bit modulus `blsP` and the parameter
constants from the sources.
-/

/- ## Byte-level encoding helpers -/

/-- Modelled from the spec: big-endian byte serialization of a natural
number into a fixed-width buffer (the canonical big-endian byte layout used
by the missing util.rs serialize_fq helper; first byte is most
significant). -/
def natToBytesBE : ℕ → ℕ → List ℕ
  | 0, _ => []
  | w + 1, v => v / 256 ^ w % 256 :: natToBytesBE w v

/-- Modelled from the spec: big-endian byte decoding, inverse direction of
the coordinate layout used by the missing util.rs read helpers. -/
def bytesToNat : List ℕ → ℕ
  | [] => 0
  | b :: rest => b * 256 ^ rest.length + bytesToNat rest

theorem length_natToBytesBE (w v : ℕ) : (natToBytesBE w v).length = w := by
  induction w generalizing v with
  | zero => rfl
  | succ w ih => simp [natToBytesBE, ih]

theorem bytesToNat_natToBytesBE (w v : ℕ) :
    bytesToNat (natToBytesBE w v) = v % 256 ^ w := by
  induction w generalizing v with
  | zero => simp [natToBytesBE, bytesToNat, Nat.mod_one]
  | succ w ih =>
      have hsplit : v % 256 ^ (w + 1) = v % 256 ^ w + 256 ^ w * (v / 256 ^ w % 256) := by
        rw [pow_succ, Nat.mod_mul]
      simp [natToBytesBE, bytesToNat, length_natToBytesBE, ih, hsplit]
      ring

/- ## The flag codec (spec §4.1) -/

/-- Modelled from the spec: the three serialization flags packed into the
high bits of the first byte (the EncodingFlags type of the missing
util.rs). -/
structure EncodingFlags where
  isCompressed : Bool
  isInfinity : Bool
  isLexLargest : Bool
deriving DecidableEq

/-- Modelled from the spec: the flag byte, bit 7 (0x80) for compressed,
bit 6 (0x40) for infinity, bit 5 (0x20) for lexicographically largest. -/
def EncodingFlags.toByte (f : EncodingFlags) : ℕ :=
  (if f.isCompressed then 128 else 0) + (if f.isInfinity then 64 else 0) +
    (if f.isLexLargest then 32 else 0)

/-- Modelled from the spec: encode_flags of the missing util.rs,
OR-ing the flag bits into the first byte of the buffer. -/
def encodeFlags (f : EncodingFlags) : List ℕ → List ℕ
  | [] => []
  | b :: rest => (b ||| f.toByte) :: rest

/-- Modelled from the spec: decode_flags of the missing util.rs, reading
and clearing the three flag bits of the first byte. -/
def decodeFlags : List ℕ → EncodingFlags × List ℕ
  | [] => (⟨false, false, false⟩, [])
  | b :: rest => (⟨b.testBit 7, b.testBit 6, b.testBit 5⟩, b % 32 :: rest)

theorem testBit_lor_low (b t : ℕ) (hb : b < 32)
    (ht : ∀ j, j < 5 → t.testBit j = false) : (b ||| t) % 32 = b := by
  apply Nat.eq_of_testBit_eq
  intro j
  rw [show (32 : ℕ) = 2 ^ 5 from rfl, Nat.testBit_mod_two_pow, Nat.testBit_or]
  by_cases hj : j < 5
  · simp [hj, ht j hj]
  · have hle : (32 : ℕ) ≤ 2 ^ j := by
      calc (32 : ℕ) = 2 ^ 5 := rfl
        _ ≤ 2 ^ j := Nat.pow_le_pow_right (by norm_num) (by omega)
    have hbj : b.testBit j = false := Nat.testBit_lt_two_pow (lt_of_lt_of_le hb hle)
    simp [hj, hbj]

theorem testBit_lor_high (b t j : ℕ) (hb : b < 32) (hj : 5 ≤ j) :
    (b ||| t).testBit j = t.testBit j := by
  rw [Nat.testBit_or]
  have hle : (32 : ℕ) ≤ 2 ^ j := by
    calc (32 : ℕ) = 2 ^ 5 := rfl
      _ ≤ 2 ^ j := Nat.pow_le_pow_right (by norm_num) hj
  have hbj : b.testBit j = false := Nat.testBit_lt_two_pow (lt_of_lt_of_le hb hle)
  simp [hbj]

/-- Flag round-trip on buffers whose first byte carries only coordinate
bits (its three high bits clear). -/
theorem decodeFlags_encodeFlags (f : EncodingFlags) (b : ℕ) (rest : List ℕ)
    (hb : b < 32) : decodeFlags (encodeFlags f (b :: rest)) = (f, b :: rest) := by
  obtain ⟨c, i, l⟩ := f
  cases c <;> cases i <;> cases l <;>
    · simp only [encodeFlags, decodeFlags, EncodingFlags.toByte]
      rw [testBit_lor_high b _ 7 hb (by omega), testBit_lor_high b _ 6 hb (by omega),
        testBit_lor_high b _ 5 hb (by omega), testBit_lor_low b _ hb (by decide)]
      simp
      try decide

theorem length_encodeFlags (f : EncodingFlags) (l : List ℕ) :
    (encodeFlags f l).length = l.length := by
  cases l <;> simp [encodeFlags]

/- ## Points -/

/-- Affine point representation of the wrapped arithmetic library: two
coordinates plus an infinity flag (spec §3 AffinePoint). -/
structure Aff (F : Type) where
  x : F
  y : F
  infinity : Bool
deriving DecidableEq

/-- The canonical point at infinity (coordinates zeroed, flag set). -/
def affZero {F : Type} [CommRing F] : Aff F := ⟨0, 0, true⟩

/-- Jacobian projective point of the wrapped arithmetic library (affine
coordinates are X / Z^2, Y / Z^3; Z = 0 encodes infinity). -/
structure Proj (F : Type) where
  x : F
  y : F
  z : F
deriving DecidableEq

def projZero {F : Type} [CommRing F] : Proj F := ⟨1, 1, 0⟩

/-- Modelled from the spec: point doubling of the external curve-arithmetic
library (spec §6), Jacobian doubling formulas for a short-Weierstrass curve
with a = 0. -/
def projDouble {F : Type} [CommRing F] [DecidableEq F] (P : Proj F) : Proj F :=
  if P.z = 0 then P
  else
    let A := P.x * P.x
    let B := P.y * P.y
    let C := B * B
    let D := 2 * ((P.x + B) * (P.x + B) - A - C)
    let E := 3 * A
    let F := E * E
    let x3 := F - 2 * D
    ⟨x3, E * (D - x3) - 8 * C, 2 * P.y * P.z⟩

/-- Modelled from the spec: point addition of the external curve-arithmetic
library (spec §6), Jacobian addition formulas. -/
def projAdd {F : Type} [CommRing F] [DecidableEq F] (P Q : Proj F) : Proj F :=
  if P.z = 0 then Q
  else if Q.z = 0 then P
  else
    let Z1Z1 := P.z * P.z
    let Z2Z2 := Q.z * Q.z
    let U1 := P.x * Z2Z2
    let U2 := Q.x * Z1Z1
    let S1 := P.y * Q.z * Z2Z2
    let S2 := Q.y * P.z * Z1Z1
    if U1 = U2 then
      if S1 = S2 then projDouble P else projZero
    else
      let H := U2 - U1
      let I := (2 * H) * (2 * H)
      let J := H * I
      let R := 2 * (S2 - S1)
      let V := U1 * I
      let x3 := R * R - J - 2 * V
      ⟨x3, R * (V - x3) - 2 * S1 * J, ((P.z + Q.z) * (P.z + Q.z) - Z1Z1 - Z2Z2) * H⟩

def projNeg {F : Type} [CommRing F] (P : Proj F) : Proj F := ⟨P.x, -P.y, P.z⟩

def toProj {F : Type} [CommRing F] (P : Aff F) : Proj F :=
  if P.infinity then projZero else ⟨P.x, P.y, 1⟩

/-- Modelled from the spec: binary double-and-add scalar multiplication of
the external curve-arithmetic library (spec §6), with explicit fuel. -/
def projMulAux {F : Type} [CommRing F] [DecidableEq F] :
    ℕ → Proj F → ℕ → Proj F → Proj F
  | 0, _, _, acc => acc
  | fuel + 1, base, k, acc =>
    if k = 0 then acc
    else projMulAux fuel (projDouble base) (k / 2)
      (if k % 2 = 1 then projAdd acc base else acc)

/-- Scalar multiplication of a projective point (mul_bigint on Projective). -/
def projMulBigint {F : Type} [CommRing F] [DecidableEq F] (P : Proj F) (k : ℕ) : Proj F :=
  projMulAux (k + 1) P k projZero

/-- Scalar multiplication of an affine point (mul_bigint on AffineRepr). -/
def mulBigintAff {F : Type} [CommRing F] [DecidableEq F] (P : Aff F) (k : ℕ) : Proj F :=
  projMulAux (k + 1) (toProj P) k projZero

/-- Modelled from the spec: mixed projective/affine point equality of the
external curve-arithmetic library (spec §6), comparing cross-multiplied
Jacobian coordinates and treating Z = 0 as infinity. -/
def eqProjAff {F : Type} [CommRing F] [DecidableEq F] (Pr : Proj F) (A : Aff F) : Bool :=
  if Pr.z = 0 then A.infinity
  else if A.infinity then false
  else decide (Pr.x = A.x * (Pr.z * Pr.z) ∧ Pr.y = A.y * (Pr.z * (Pr.z * Pr.z)))

theorem projAdd_zero_left {F : Type} [CommRing F] [DecidableEq F] (Q : Proj F) :
    projAdd projZero Q = Q := by
  simp [projAdd, projZero]

theorem projDouble_zero {F : Type} [CommRing F] [DecidableEq F] :
    projDouble (projZero : Proj F) = projZero := by
  simp [projDouble, projZero]

theorem projMulAux_zero_base {F : Type} [CommRing F] [DecidableEq F]
    (fuel k : ℕ) : projMulAux fuel (projZero : Proj F) k projZero = projZero := by
  induction fuel generalizing k with
  | zero => rfl
  | succ fuel ih =>
      have h1 : projAdd (projZero : Proj F) projZero = projZero := projAdd_zero_left _
      simp only [projMulAux, projDouble_zero, h1]
      split
      · rfl
      · split <;> exact ih (k / 2)

theorem mulBigintAff_affZero {F : Type} [CommRing F] [DecidableEq F] (k : ℕ) :
    mulBigintAff (affZero : Aff F) k = projZero := by
  simp [mulBigintAff, toProj, affZero, projMulAux_zero_base]

theorem eqProjAff_zero {F : Type} [CommRing F] [DecidableEq F] (A : Aff F) :
    eqProjAff projZero A = A.infinity := by
  simp [eqProjAff, projZero]

/- ## The quadratic extension field Fq2 = Fq[u] / (u^2 + 1) -/

/-- Modelled from the spec: degree-2 extension-field element, an ordered
pair (c0, c1) over the base prime field, with u^2 = -1 (the BLS12-381 Fq2
of the external field library, spec §3). -/
structure Fq2 (p : ℕ) where
  c0 : ZMod p
  c1 : ZMod p
deriving DecidableEq

namespace Fq2

variable {p : ℕ}

theorem ext2 {a b : Fq2 p} (h0 : a.c0 = b.c0) (h1 : a.c1 = b.c1) : a = b := by
  cases a; cases b; cases h0; cases h1; rfl

instance : Add (Fq2 p) := ⟨fun a b => ⟨a.c0 + b.c0, a.c1 + b.c1⟩⟩
instance : Mul (Fq2 p) := ⟨fun a b => ⟨a.c0 * b.c0 - a.c1 * b.c1, a.c0 * b.c1 + a.c1 * b.c0⟩⟩
instance : Neg (Fq2 p) := ⟨fun a => ⟨-a.c0, -a.c1⟩⟩
instance : Zero (Fq2 p) := ⟨⟨0, 0⟩⟩
instance : One (Fq2 p) := ⟨⟨1, 0⟩⟩

@[simp] theorem add_c0 (a b : Fq2 p) : (a + b).c0 = a.c0 + b.c0 := rfl
@[simp] theorem add_c1 (a b : Fq2 p) : (a + b).c1 = a.c1 + b.c1 := rfl
@[simp] theorem mul_c0 (a b : Fq2 p) : (a * b).c0 = a.c0 * b.c0 - a.c1 * b.c1 := rfl
@[simp] theorem mul_c1 (a b : Fq2 p) : (a * b).c1 = a.c0 * b.c1 + a.c1 * b.c0 := rfl
@[simp] theorem neg_c0 (a : Fq2 p) : (-a).c0 = -a.c0 := rfl
@[simp] theorem neg_c1 (a : Fq2 p) : (-a).c1 = -a.c1 := rfl
@[simp] theorem zero_c0 : (0 : Fq2 p).c0 = 0 := rfl
@[simp] theorem zero_c1 : (0 : Fq2 p).c1 = 0 := rfl
@[simp] theorem one_c0 : (1 : Fq2 p).c0 = 1 := rfl
@[simp] theorem one_c1 : (1 : Fq2 p).c1 = 0 := rfl

instance instCommRing : CommRing (Fq2 p) where
  add_assoc a b c := by apply ext2 <;> simp <;> ring
  zero_add a := by apply ext2 <;> simp
  add_zero a := by apply ext2 <;> simp
  add_comm a b := by apply ext2 <;> simp <;> ring
  mul_assoc a b c := by apply ext2 <;> simp <;> ring
  one_mul a := by apply ext2 <;> simp
  mul_one a := by apply ext2 <;> simp
  left_distrib a b c := by apply ext2 <;> simp <;> ring
  right_distrib a b c := by apply ext2 <;> simp <;> ring
  zero_mul a := by apply ext2 <;> simp
  mul_zero a := by apply ext2 <;> simp
  mul_comm a b := by apply ext2 <;> simp <;> ring
  neg_add_cancel a := by apply ext2 <;> simp
  natCast n := ⟨(n : ZMod p), 0⟩
  natCast_zero := by apply ext2 <;> simp
  natCast_succ n := by apply ext2 <;> simp
  nsmul := nsmulRec
  zsmul := zsmulRec

/-- Component form of the Frobenius map on Fq2 (conjugation, as implemented
by frobenius_map_in_place(1) of the external field library). -/
def conj (a : Fq2 p) : Fq2 p := ⟨a.c0, -a.c1⟩

/-- Norm map down to the base field. -/
def norm (a : Fq2 p) : ZMod p := a.c0 * a.c0 + a.c1 * a.c1

theorem norm_mul (a b : Fq2 p) : norm (a * b) = norm a * norm b := by
  simp [norm]; ring

theorem norm_eq_zero (hp : p.Prime) (h4 : p % 4 = 3) (a : Fq2 p)
    (h : norm a = 0) : a = 0 := by
  haveI : Fact p.Prime := ⟨hp⟩
  by_cases hc1 : a.c1 = 0
  · have h0 : a.c0 * a.c0 = 0 := by
      have := h; simp [norm, hc1] at this; simpa using this
    have : a.c0 = 0 := by
      rcases mul_eq_zero.mp h0 with h | h <;> exact h
    exact ext2 this hc1
  · exfalso
    have hfield : a.c0 * a.c0 = -(a.c1 * a.c1) := by
      have h0 : a.c0 * a.c0 + a.c1 * a.c1 = 0 := h
      linear_combination h0
    have h1 : a.c1⁻¹ * a.c1 = 1 := inv_mul_cancel₀ hc1
    have hdiv : (a.c0 * a.c1⁻¹) * (a.c0 * a.c1⁻¹) = -1 := by
      calc (a.c0 * a.c1⁻¹) * (a.c0 * a.c1⁻¹)
          = (a.c0 * a.c0) * (a.c1⁻¹ * a.c1⁻¹) := by ring
        _ = -(a.c1 * a.c1) * (a.c1⁻¹ * a.c1⁻¹) := by rw [hfield]
        _ = -((a.c1⁻¹ * a.c1) * (a.c1⁻¹ * a.c1)) := by ring
        _ = -1 := by rw [h1]; ring
    have hsq : IsSquare (-1 : ZMod p) := ⟨a.c0 * a.c1⁻¹, hdiv.symm⟩
    exact ZMod.exists_sq_eq_neg_one_iff.mp hsq h4

end Fq2

theorem Fq2.mul_eq_zero_iff {p : ℕ} (hp : p.Prime) (h4 : p % 4 = 3)
    {a b : Fq2 p} (h : a * b = 0) : a = 0 ∨ b = 0 := by
  haveI : Fact p.Prime := ⟨hp⟩
  have hn : Fq2.norm a * Fq2.norm b = 0 := by
    rw [← Fq2.norm_mul, h]; simp [Fq2.norm]
  rcases mul_eq_zero.mp hn with h1 | h1
  · exact Or.inl (Fq2.norm_eq_zero hp h4 a h1)
  · exact Or.inr (Fq2.norm_eq_zero hp h4 b h1)

theorem sq_cancel_zmod {p : ℕ} (hp : p.Prime) {z y : ZMod p}
    (h : z * z = y * y) : z = y ∨ z = -y := by
  haveI : Fact p.Prime := ⟨hp⟩
  have hfac : (z - y) * (z + y) = 0 := by linear_combination h
  rcases mul_eq_zero.mp hfac with h1 | h1
  · exact Or.inl (by linear_combination h1)
  · exact Or.inr (by linear_combination h1)

theorem sq_cancel_fq2 {p : ℕ} (hp : p.Prime) (h4 : p % 4 = 3) {z y : Fq2 p}
    (h : z * z = y * y) : z = y ∨ z = -y := by
  have hfac : (z - y) * (z + y) = 0 := by ring_nf; linear_combination h
  rcases Fq2.mul_eq_zero_iff hp h4 hfac with h1 | h1
  · exact Or.inl (by linear_combination h1)
  · exact Or.inr (by linear_combination h1)

/- ## Lexicographic sign and square-root search (spec §4.2 step 3, §4.3 step 4) -/

/-- Lexicographic-largest test for a base-field element: y is numerically
larger than its negation in the canonical representative ordering. -/
def lexLargestFq {p : ℕ} (y : ZMod p) : Bool := decide ((-y).val < y.val)

/-- Lexicographic-largest test for an extension-field element: ordering
compares c1 first and then c0 (the ordering of the external field
library). -/
def lexLargestFq2 {p : ℕ} (y : Fq2 p) : Bool :=
  decide ((-y).c1.val < y.c1.val ∨ ((-y).c1.val = y.c1.val ∧ (-y).c0.val < y.c0.val))

/-- Enumeration of the base field in representative order. -/
def allFq (p : ℕ) : List (ZMod p) := (List.range p).map (fun n : ℕ => (n : ZMod p))

/-- Enumeration of the extension field. -/
def allFq2 (p : ℕ) : List (Fq2 p) :=
  (List.range p).flatMap
    (fun i : ℕ => (List.range p).map (fun j : ℕ => (⟨(i : ZMod p), (j : ZMod p)⟩ : Fq2 p)))

/-- Modelled from the spec: square-root-with-sign step of the missing
util.rs read_g1_compressed (via the external get_point_from_x routine):
return the modular square root of v whose lexicographic sign matches the
decoded flag, and fail when no such root exists (spec §4.3 step 4). -/
def sqrtWithSignFq (p : ℕ) (v : ZMod p) (s : Bool) : Option (ZMod p) :=
  ((allFq p).filter (fun z => decide (z * z = v) && (lexLargestFq z == s))).head?

/-- Modelled from the spec: square-root-with-sign step of the missing
util.rs read_g2_compressed, extension-field version. -/
def sqrtWithSignFq2 (p : ℕ) (v : Fq2 p) (s : Bool) : Option (Fq2 p) :=
  ((allFq2 p).filter (fun z => decide (z * z = v) && (lexLargestFq2 z == s))).head?

theorem mem_allFq {p : ℕ} [NeZero p] (y : ZMod p) : y ∈ allFq p := by
  have h : ((y.val : ℕ) : ZMod p) = y := ZMod.natCast_rightInverse y
  rw [← h]
  unfold allFq
  exact List.mem_map_of_mem (fun n : ℕ => (n : ZMod p))
    (List.mem_range.mpr (ZMod.val_lt y))

theorem mem_allFq2 {p : ℕ} [NeZero p] (y : Fq2 p) : y ∈ allFq2 p := by
  have h : (⟨((y.c0.val : ℕ) : ZMod p), ((y.c1.val : ℕ) : ZMod p)⟩ : Fq2 p) = y := by
    apply Fq2.ext2 <;>
      simp [ZMod.natCast_rightInverse y.c0, ZMod.natCast_rightInverse y.c1]
  rw [← h]
  unfold allFq2
  apply List.mem_flatMap.mpr
  refine ⟨y.c0.val, List.mem_range.mpr (ZMod.val_lt _), ?_⟩
  exact List.mem_map_of_mem
    (fun j : ℕ => (⟨((y.c0.val : ℕ) : ZMod p), (j : ZMod p)⟩ : Fq2 p))
    (List.mem_range.mpr (ZMod.val_lt _))

theorem head_filter_eq {α : Type} (l : List α) (pr : α → Bool) (y : α)
    (hy : y ∈ l) (hpy : pr y = true) (huniq : ∀ z ∈ l, pr z = true → z = y) :
    (l.filter pr).head? = some y := by
  induction l with
  | nil => cases hy
  | cons a t ih =>
      by_cases ha : pr a = true
      · rw [List.filter_cons_of_pos ha]
        simp [huniq a (List.mem_cons_self a t) ha]
      · rw [List.filter_cons_of_neg ha]
        have hyt : y ∈ t := by
          rcases List.mem_cons.mp hy with h | h
          · exact absurd (h ▸ hpy) ha
          · exact h
        exact ih hyt (fun z hz hpz => huniq z (List.mem_cons_of_mem a hz) hpz)

theorem lexLargestFq_neg {p : ℕ} [NeZero p] {y : ZMod p} (hy : y ≠ -y) :
    lexLargestFq (-y) = !lexLargestFq y := by
  have hne : (-y).val ≠ y.val := fun h => hy ((ZMod.val_injective p h).symm)
  simp only [lexLargestFq, neg_neg, ← decide_not]
  rw [decide_eq_decide]
  omega

theorem lexLargestFq2_neg {p : ℕ} [NeZero p] {y : Fq2 p} (hy : y ≠ -y) :
    lexLargestFq2 (-y) = !lexLargestFq2 y := by
  have hdist : y.c1.val ≠ (-y).c1.val ∨
      (y.c1.val = (-y).c1.val ∧ y.c0.val ≠ (-y).c0.val) := by
    by_cases hc1 : y.c1 = -y.c1
    · refine Or.inr ⟨by rw [Fq2.neg_c1, ← hc1], ?_⟩
      intro h0
      have hc0 : y.c0 = -y.c0 := by
        have := ZMod.val_injective p (h0 : y.c0.val = (-y).c0.val)
        simpa using this
      exact hy (Fq2.ext2 hc0 hc1)
    · refine Or.inl ?_
      intro h1
      exact hc1 (by simpa using ZMod.val_injective p h1)
  simp only [lexLargestFq2, neg_neg, ← decide_not]
  rw [decide_eq_decide]
  rcases hdist with h | ⟨h1, h0⟩ <;> omega

/-- The sign-matching root search finds exactly the original root: search
for a root of y * y carrying the sign of y returns y itself. -/
theorem sqrtWithSignFq_roundtrip {p : ℕ} (hp : p.Prime) (y : ZMod p) :
    sqrtWithSignFq p (y * y) (lexLargestFq y) = some y := by
  haveI : Fact p.Prime := ⟨hp⟩
  apply head_filter_eq
  · exact mem_allFq y
  · simp
  · intro z hz hpz
    simp only [Bool.and_eq_true, decide_eq_true_eq, beq_iff_eq] at hpz
    obtain ⟨hsq, hsign⟩ := hpz
    rcases sq_cancel_zmod hp hsq with h | h
    · exact h
    · by_cases hyy : y = -y
      · rw [h, ← hyy]
      · subst h
        rw [lexLargestFq_neg hyy] at hsign
        cases hb : lexLargestFq y <;> rw [hb] at hsign <;> simp at hsign

/-- Extension-field version of the sign-matching root search round-trip. -/
theorem sqrtWithSignFq2_roundtrip {p : ℕ} (hp : p.Prime) (h4 : p % 4 = 3) (y : Fq2 p) :
    sqrtWithSignFq2 p (y * y) (lexLargestFq2 y) = some y := by
  haveI : Fact p.Prime := ⟨hp⟩
  apply head_filter_eq
  · exact mem_allFq2 y
  · simp
  · intro z hz hpz
    simp only [Bool.and_eq_true, decide_eq_true_eq, beq_iff_eq] at hpz
    obtain ⟨hsq, hsign⟩ := hpz
    rcases sq_cancel_fq2 hp h4 hsq with h | h
    · exact h
    · by_cases hyy : y = -y
      · rw [h, ← hyy]
      · subst h
        rw [lexLargestFq2_neg hyy] at hsign
        cases hb : lexLargestFq2 y <;> rw [hb] at hsign <;> simp at hsign

/- ## Serialization (g1.rs / g2.rs serialize_with_mode) -/

/-- Serialization error kinds (spec §7). -/
inductive SerializationError where
  | invalidData
  | ioFailure
deriving DecidableEq

/-- Modelled from the spec: serialize_fq of the missing util.rs, canonical
big-endian encoding of a base-field element into 48 bytes. -/
def serializeFq {p : ℕ} (a : ZMod p) : List ℕ := natToBytesBE 48 a.val

/-- Extension-field coordinate layout: c1 bytes first, then c0 bytes
(g2.rs serialize_with_mode). -/
def serializeFq2Coord {p : ℕ} (a : Fq2 p) : List ℕ :=
  serializeFq a.c1 ++ serializeFq a.c0

/-- Embedding of g1.rs serialize_with_mode: flags computed from the input
point, coordinates taken from the zeroed point when serializing
infinity. -/
def serializeWithModeG1 {p : ℕ} (P : Aff (ZMod p)) (compress : Bool) : List ℕ :=
  let flags : EncodingFlags := ⟨compress, P.infinity, lexLargestFq P.y⟩
  let q := if flags.isInfinity then affZero else P
  let xB := serializeFq q.x
  if flags.isCompressed then encodeFlags flags xB
  else encodeFlags flags (xB ++ serializeFq q.y)

/-- Embedding of g2.rs serialize_with_mode. -/
def serializeWithModeG2 {p : ℕ} (P : Aff (Fq2 p)) (compress : Bool) : List ℕ :=
  let flags : EncodingFlags := ⟨compress, P.infinity, lexLargestFq2 P.y⟩
  let q := if flags.isInfinity then affZero else P
  let xB := serializeFq2Coord q.x
  if flags.isCompressed then encodeFlags flags xB
  else encodeFlags flags (xB ++ serializeFq2Coord q.y)

/-- Modelled from the spec: G1 serialized sizes (g1.rs serialized_size
delegates to the external configuration; 48 bytes compressed, 96
uncompressed). -/
def serializedSizeG1 (compress : Bool) : ℕ := if compress then 48 else 96

/-- Embedding of g2.rs serialized_size. -/
def serializedSizeG2 (compress : Bool) : ℕ := if compress then 96 else 192

/- ## Deserialization (spec §4.3, util.rs read helpers and
deserialize_with_mode of g1.rs / g2.rs) -/

/-- Modelled from the spec: read_g1_compressed of the missing util.rs.
Reads 48 bytes, decodes flags, returns the zero point on the infinity flag,
rejects non-canonical coordinates, and recovers y by the sign-matching
square root (spec §4.3 steps 1-4). -/
def readG1Compressed (p : ℕ) (buf : List ℕ) : Except SerializationError (Aff (ZMod p)) :=
  if buf.length = 48 then
    let fr := decodeFlags buf
    if fr.1.isInfinity then .ok affZero
    else
      let xn := bytesToNat fr.2
      if xn < p then
        let x : ZMod p := (xn : ZMod p)
        match sqrtWithSignFq p (x * x * x + 4) fr.1.isLexLargest with
        | some y => .ok ⟨x, y, false⟩
        | none => .error .invalidData
      else .error .invalidData
  else .error .ioFailure

/-- Modelled from the spec: read_g1_uncompressed of the missing util.rs.
Reads 96 bytes and accepts the (x, y) pair as given (spec §4.3 step 5). -/
def readG1Uncompressed (p : ℕ) (buf : List ℕ) : Except SerializationError (Aff (ZMod p)) :=
  if buf.length = 96 then
    let fr := decodeFlags buf
    if fr.1.isInfinity then .ok affZero
    else
      let xn := bytesToNat (fr.2.take 48)
      let yn := bytesToNat (fr.2.drop 48)
      if xn < p ∧ yn < p then .ok ⟨(xn : ZMod p), (yn : ZMod p), false⟩
      else .error .invalidData
  else .error .ioFailure

/-- Modelled from the spec: canonical decoding of an extension-field
coordinate from 96 bytes laid out as c1 bytes then c0 bytes. -/
def fq2OfBytes (p : ℕ) (l : List ℕ) : Option (Fq2 p) :=
  let c1n := bytesToNat (l.take 48)
  let c0n := bytesToNat (l.drop 48)
  if c1n < p ∧ c0n < p then some ⟨(c0n : ZMod p), (c1n : ZMod p)⟩ else none

/-- Modelled from the spec: read_g2_compressed of the missing util.rs. -/
def readG2Compressed (p : ℕ) (buf : List ℕ) : Except SerializationError (Aff (Fq2 p)) :=
  if buf.length = 96 then
    let fr := decodeFlags buf
    if fr.1.isInfinity then .ok affZero
    else
      match fq2OfBytes p fr.2 with
      | none => .error .invalidData
      | some x =>
        match sqrtWithSignFq2 p (x * x * x + ⟨4, 4⟩) fr.1.isLexLargest with
        | some y => .ok ⟨x, y, false⟩
        | none => .error .invalidData
  else .error .ioFailure

/-- Modelled from the spec: read_g2_uncompressed of the missing util.rs. -/
def readG2Uncompressed (p : ℕ) (buf : List ℕ) : Except SerializationError (Aff (Fq2 p)) :=
  if buf.length = 192 then
    let fr := decodeFlags buf
    if fr.1.isInfinity then .ok affZero
    else
      match fq2OfBytes p (fr.2.take 96), fq2OfBytes p (fr.2.drop 96) with
      | some x, some y => .ok ⟨x, y, false⟩
      | _, _ => .error .invalidData
  else .error .ioFailure

/- ## Subgroup membership checks -/

/-- Embedding of the g1.rs endomorphism: (x, y) to (BETA * x, y). -/
def endoG1 {p : ℕ} (beta : ZMod p) (P : Aff (ZMod p)) : Aff (ZMod p) :=
  ⟨P.x * beta, P.y, P.infinity⟩

/-- Embedding of g1.rs is_in_correct_subgroup_assuming_on_curve. -/
def isInCorrectSubgroupG1 {p : ℕ} (beta : ZMod p) (X : ℕ) (P : Aff (ZMod p)) : Bool :=
  let xp := mulBigintAff P X
  if eqProjAff xp P && !P.infinity then false
  else eqProjAff (projNeg (projMulBigint xp X)) (endoG1 beta P)

/-- Embedding of the g2.rs p_power_endomorphism: conjugate both
coordinates, twist x by the psi coefficient, multiply y by the psi-y
coefficient. -/
def pPowerEndo {p : ℕ} (psiX : ZMod p) (psiY : Fq2 p) (P : Aff (Fq2 p)) : Aff (Fq2 p) :=
  let xc := Fq2.conj P.x
  let yc := Fq2.conj P.y
  ⟨⟨-psiX * xc.c1, psiX * xc.c0⟩, yc * psiY, P.infinity⟩

/-- Embedding of g2.rs is_in_correct_subgroup_assuming_on_curve: compares
the (sign-adjusted) X-multiple with the p-power endomorphism image. -/
def isInCorrectSubgroupG2 {p : ℕ} (X : ℕ) (xNeg : Bool) (psiX : ZMod p)
    (psiY : Fq2 p) (P : Aff (Fq2 p)) : Bool :=
  let xp0 := mulBigintAff P X
  let xp := if xNeg then projNeg xp0 else xp0
  eqProjAff xp (pPowerEndo psiX psiY P)

/-- Selection of the reader by compression mode. -/
def readG1 (p : ℕ) (compress : Bool) (buf : List ℕ) :
    Except SerializationError (Aff (ZMod p)) :=
  if compress then readG1Compressed p buf else readG1Uncompressed p buf

def readG2 (p : ℕ) (compress : Bool) (buf : List ℕ) :
    Except SerializationError (Aff (Fq2 p)) :=
  if compress then readG2Compressed p buf else readG2Uncompressed p buf

/-- Embedding of g1.rs deserialize_with_mode: read by mode, then perform
the subgroup check exactly when validation is requested. -/
def deserializeWithModeG1 {p : ℕ} (beta : ZMod p) (X : ℕ) (compress validate : Bool)
    (buf : List ℕ) : Except SerializationError (Aff (ZMod p)) :=
  match readG1 p compress buf with
  | .error e => .error e
  | .ok pt =>
    if validate && !(isInCorrectSubgroupG1 beta X pt) then .error .invalidData
    else .ok pt

/-- Embedding of g2.rs deserialize_with_mode. -/
def deserializeWithModeG2 {p : ℕ} (X : ℕ) (xNeg : Bool) (psiX : ZMod p) (psiY : Fq2 p)
    (compress validate : Bool) (buf : List ℕ) :
    Except SerializationError (Aff (Fq2 p)) :=
  match readG2 p compress buf with
  | .error e => .error e
  | .ok pt =>
    if validate && !(isInCorrectSubgroupG2 X xNeg psiX psiY pt) then .error .invalidData
    else .ok pt

/- ## Curve equations (source doc: G1 is y^2 = x^3 + 4, G2 is
y^2 = x^3 + (4, 4)) -/

def onCurveG1 {p : ℕ} (P : Aff (ZMod p)) : Prop :=
  P.y * P.y = P.x * P.x * P.x + 4

def onCurveG2 {p : ℕ} (P : Aff (Fq2 p)) : Prop :=
  P.y * P.y = P.x * P.x * P.x + (⟨4, 4⟩ : Fq2 p)

/-- A valid G1 point: the canonical point at infinity, or a finite point on
the curve accepted by the subgroup check. -/
def validG1 {p : ℕ} (beta : ZMod p) (X : ℕ) (P : Aff (ZMod p)) : Prop :=
  P = affZero ∨
    (P.infinity = false ∧ onCurveG1 P ∧ isInCorrectSubgroupG1 beta X P = true)

/-- A valid G2 point. -/
def validG2 {p : ℕ} (X : ℕ) (xNeg : Bool) (psiX : ZMod p) (psiY : Fq2 p)
    (P : Aff (Fq2 p)) : Prop :=
  P = affZero ∨
    (P.infinity = false ∧ onCurveG2 P ∧ isInCorrectSubgroupG2 X xNeg psiX psiY P = true)

theorem isInCorrectSubgroupG1_affZero {p : ℕ} (beta : ZMod p) (X : ℕ) :
    isInCorrectSubgroupG1 beta X (affZero : Aff (ZMod p)) = true := by
  unfold isInCorrectSubgroupG1
  rw [mulBigintAff_affZero]
  have hz : projMulBigint (projZero : Proj (ZMod p)) X = projZero :=
    projMulAux_zero_base (X + 1) X
  simp only [eqProjAff_zero, hz]
  simp [affZero, projNeg, projZero, eqProjAff, endoG1]

theorem isInCorrectSubgroupG2_affZero {p : ℕ} (X : ℕ) (xNeg : Bool) (psiX : ZMod p)
    (psiY : Fq2 p) : isInCorrectSubgroupG2 X xNeg psiX psiY (affZero : Aff (Fq2 p)) = true := by
  unfold isInCorrectSubgroupG2
  rw [mulBigintAff_affZero]
  cases xNeg <;> simp [projNeg, projZero, eqProjAff, pPowerEndo, affZero]

/- ## Byte-level bridge lemmas -/

theorem Aff.ext3 {F : Type} {P Q : Aff F} (hx : P.x = Q.x) (hy : P.y = Q.y)
    (hi : P.infinity = Q.infinity) : P = Q := by
  cases P; cases Q; cases hx; cases hy; cases hi; rfl

theorem length_serializeFq {p : ℕ} (a : ZMod p) : (serializeFq a).length = 48 :=
  length_natToBytesBE 48 a.val

theorem pow256_48 : (256 : ℕ) ^ 48 = 2 ^ 384 := by
  rw [show (256 : ℕ) = 2 ^ 8 from rfl, ← pow_mul]

theorem pow381_split : (2 : ℕ) ^ 381 = 32 * 256 ^ 47 := by
  rw [show (256 : ℕ) = 2 ^ 8 from rfl, show (32 : ℕ) = 2 ^ 5 from rfl, ← pow_mul,
    ← pow_add]

theorem head_byte_lt {p : ℕ} [NeZero p] (hlt : p ≤ 2 ^ 381) (a : ZMod p) :
    a.val / 256 ^ 47 % 256 < 32 := by
  have hv : a.val < 32 * 256 ^ 47 := by
    calc a.val < p := ZMod.val_lt a
      _ ≤ 2 ^ 381 := hlt
      _ = 32 * 256 ^ 47 := pow381_split
  have h1 : a.val / 256 ^ 47 < 32 := Nat.div_lt_of_lt_mul (by linarith [hv])
  rw [Nat.mod_eq_of_lt (lt_trans h1 (by norm_num))]
  exact h1

theorem bytesToNat_serializeFq {p : ℕ} [NeZero p] (hlt : p ≤ 2 ^ 381) (a : ZMod p) :
    bytesToNat (serializeFq a) = a.val := by
  unfold serializeFq
  rw [bytesToNat_natToBytesBE]
  apply Nat.mod_eq_of_lt
  calc a.val < p := ZMod.val_lt a
    _ ≤ 2 ^ 381 := hlt
    _ < 2 ^ 384 := by norm_num
    _ = 256 ^ 48 := pow256_48.symm

theorem decodeFlags_encodeFlags_bytes (f : EncodingFlags) (v : ℕ)
    (hb : v / 256 ^ 47 % 256 < 32) (rest : List ℕ) :
    decodeFlags (encodeFlags f (natToBytesBE 48 v ++ rest)) =
      (f, natToBytesBE 48 v ++ rest) := by
  have hshape : natToBytesBE 48 v ++ rest =
      (v / 256 ^ 47 % 256) :: (natToBytesBE 47 v ++ rest) := rfl
  rw [hshape]
  exact decodeFlags_encodeFlags f _ _ hb

theorem decodeFlags_encodeFlags_serializeFq {p : ℕ} [NeZero p] (hlt : p ≤ 2 ^ 381)
    (f : EncodingFlags) (a : ZMod p) (rest : List ℕ) :
    decodeFlags (encodeFlags f (serializeFq a ++ rest)) = (f, serializeFq a ++ rest) :=
  decodeFlags_encodeFlags_bytes f a.val (head_byte_lt hlt a) rest

/- ## Round-trip lemmas -/

theorem lexLargestFq_zero {p : ℕ} : lexLargestFq (0 : ZMod p) = false := by
  simp [lexLargestFq]

theorem serializeG1_inf {p : ℕ} (P : Aff (ZMod p)) (hP : P.infinity = true) (c : Bool) :
    serializeWithModeG1 P c =
      encodeFlags ⟨c, true, lexLargestFq P.y⟩
        (if c then serializeFq (0 : ZMod p)
         else serializeFq (0 : ZMod p) ++ serializeFq (0 : ZMod p)) := by
  cases c <;> simp [serializeWithModeG1, hP, affZero]

theorem serializeG1_fin {p : ℕ} (P : Aff (ZMod p)) (hP : P.infinity = false) (c : Bool) :
    serializeWithModeG1 P c =
      encodeFlags ⟨c, false, lexLargestFq P.y⟩
        (if c then serializeFq P.x else serializeFq P.x ++ serializeFq P.y) := by
  cases c <;> simp [serializeWithModeG1, hP]

theorem readG1Compressed_encode_inf {p : ℕ} [NeZero p] (hlt : p ≤ 2 ^ 381)
    (f : EncodingFlags) (hf : f.isInfinity = true) (a : ZMod p) :
    readG1Compressed p (encodeFlags f (serializeFq a)) = .ok affZero := by
  have hdec := decodeFlags_encodeFlags_serializeFq hlt f a []
  rw [List.append_nil] at hdec
  have hlen : (encodeFlags f (serializeFq a)).length = 48 := by
    rw [length_encodeFlags, length_serializeFq]
  rw [readG1Compressed, if_pos hlen, hdec]
  simp [hf]

theorem readG1Compressed_encode_fin {p : ℕ} (hp : p.Prime) (hlt : p ≤ 2 ^ 381)
    (f : EncodingFlags) (hf : f.isInfinity = false) (a y : ZMod p)
    (hcv : a * a * a + 4 = y * y) (hsign : f.isLexLargest = lexLargestFq y) :
    readG1Compressed p (encodeFlags f (serializeFq a)) = .ok ⟨a, y, false⟩ := by
  haveI : Fact p.Prime := ⟨hp⟩
  haveI : NeZero p := ⟨hp.ne_zero⟩
  have hdec := decodeFlags_encodeFlags_serializeFq hlt f a []
  rw [List.append_nil] at hdec
  have hlen : (encodeFlags f (serializeFq a)).length = 48 := by
    rw [length_encodeFlags, length_serializeFq]
  have hx : ((a.val : ℕ) : ZMod p) = a := ZMod.natCast_rightInverse a
  rw [readG1Compressed, if_pos hlen, hdec]
  simp only [hf, Bool.false_eq_true, if_false, bytesToNat_serializeFq hlt,
    if_pos (ZMod.val_lt a), hx, hcv, hsign, sqrtWithSignFq_roundtrip hp y]

theorem readG1Uncompressed_encode_inf {p : ℕ} [NeZero p] (hlt : p ≤ 2 ^ 381)
    (f : EncodingFlags) (hf : f.isInfinity = true) (a b : ZMod p) :
    readG1Uncompressed p (encodeFlags f (serializeFq a ++ serializeFq b)) = .ok affZero := by
  have hdec := decodeFlags_encodeFlags_serializeFq hlt f a (serializeFq b)
  have hlen : (encodeFlags f (serializeFq a ++ serializeFq b)).length = 96 := by
    rw [length_encodeFlags, List.length_append, length_serializeFq, length_serializeFq]
  rw [readG1Uncompressed, if_pos hlen, hdec]
  simp [hf]

theorem readG1Uncompressed_encode_fin {p : ℕ} [NeZero p] (hlt : p ≤ 2 ^ 381)
    (f : EncodingFlags) (hf : f.isInfinity = false) (a b : ZMod p) :
    readG1Uncompressed p (encodeFlags f (serializeFq a ++ serializeFq b)) =
      .ok ⟨a, b, false⟩ := by
  have hdec := decodeFlags_encodeFlags_serializeFq hlt f a (serializeFq b)
  have hlen : (encodeFlags f (serializeFq a ++ serializeFq b)).length = 96 := by
    rw [length_encodeFlags, List.length_append, length_serializeFq, length_serializeFq]
  have htake : (serializeFq a ++ serializeFq b).take 48 = serializeFq a :=
    List.take_left' (length_serializeFq a)
  have hdrop : (serializeFq a ++ serializeFq b).drop 48 = serializeFq b :=
    List.drop_left' (length_serializeFq a)
  have hx : ((a.val : ℕ) : ZMod p) = a := ZMod.natCast_rightInverse a
  have hy : ((b.val : ℕ) : ZMod p) = b := ZMod.natCast_rightInverse b
  rw [readG1Uncompressed, if_pos hlen, hdec]
  simp only [hf, Bool.false_eq_true, if_false, htake, hdrop,
    bytesToNat_serializeFq hlt, hx, hy]
  rw [if_pos ⟨ZMod.val_lt a, ZMod.val_lt b⟩]

theorem readG1_serialize {p : ℕ} (hp : p.Prime) (hlt : p ≤ 2 ^ 381)
    (P : Aff (ZMod p)) (c : Bool)
    (hv : P = affZero ∨ (P.infinity = false ∧ onCurveG1 P)) :
    readG1 p c (serializeWithModeG1 P c) = .ok P := by
  haveI : NeZero p := ⟨hp.ne_zero⟩
  rcases hv with rfl | ⟨hinf, hcurve⟩
  · rw [serializeG1_inf _ rfl]
    cases c
    · rw [readG1, if_neg (by simp)]
      exact readG1Uncompressed_encode_inf hlt _ rfl 0 0
    · rw [readG1, if_pos rfl]
      exact readG1Compressed_encode_inf hlt _ rfl 0
  · rw [serializeG1_fin _ hinf]
    cases c
    · rw [readG1, if_neg (by simp)]
      rw [show (if false = true then serializeFq P.x
          else serializeFq P.x ++ serializeFq P.y) = serializeFq P.x ++ serializeFq P.y
        by simp]
      rw [readG1Uncompressed_encode_fin hlt _ rfl P.x P.y]
      exact congrArg Except.ok (Aff.ext3 rfl rfl hinf.symm)
    · rw [readG1, if_pos rfl]
      rw [show (if true = true then serializeFq P.x
          else serializeFq P.x ++ serializeFq P.y) = serializeFq P.x by simp]
      rw [readG1Compressed_encode_fin hp hlt _ rfl P.x P.y hcurve.symm rfl]
      exact congrArg Except.ok (Aff.ext3 rfl rfl hinf.symm)

theorem lexLargestFq2_zero {p : ℕ} : lexLargestFq2 (0 : Fq2 p) = false := by
  simp [lexLargestFq2]

theorem length_serializeFq2Coord {p : ℕ} (a : Fq2 p) :
    (serializeFq2Coord a).length = 96 := by
  rw [serializeFq2Coord, List.length_append, length_serializeFq, length_serializeFq]

theorem fq2OfBytes_serialize {p : ℕ} [NeZero p] (hlt : p ≤ 2 ^ 381) (a : Fq2 p) :
    fq2OfBytes p (serializeFq2Coord a) = some a := by
  simp only [fq2OfBytes, serializeFq2Coord]
  rw [List.take_left' (length_serializeFq a.c1), List.drop_left' (length_serializeFq a.c1),
    bytesToNat_serializeFq hlt, bytesToNat_serializeFq hlt,
    if_pos ⟨ZMod.val_lt _, ZMod.val_lt _⟩]
  exact congrArg some (Fq2.ext2 (ZMod.natCast_rightInverse a.c0)
    (ZMod.natCast_rightInverse a.c1))

theorem decodeFlags_encodeFlags_coord {p : ℕ} [NeZero p] (hlt : p ≤ 2 ^ 381)
    (f : EncodingFlags) (a : Fq2 p) (rest : List ℕ) :
    decodeFlags (encodeFlags f (serializeFq2Coord a ++ rest)) =
      (f, serializeFq2Coord a ++ rest) := by
  simp only [serializeFq2Coord, List.append_assoc]
  exact decodeFlags_encodeFlags_serializeFq hlt f a.c1 _

theorem serializeG2_inf {p : ℕ} (P : Aff (Fq2 p)) (hP : P.infinity = true) (c : Bool) :
    serializeWithModeG2 P c =
      encodeFlags ⟨c, true, lexLargestFq2 P.y⟩
        (if c then serializeFq2Coord (0 : Fq2 p)
         else serializeFq2Coord (0 : Fq2 p) ++ serializeFq2Coord (0 : Fq2 p)) := by
  cases c <;> simp [serializeWithModeG2, hP, affZero]

theorem serializeG2_fin {p : ℕ} (P : Aff (Fq2 p)) (hP : P.infinity = false) (c : Bool) :
    serializeWithModeG2 P c =
      encodeFlags ⟨c, false, lexLargestFq2 P.y⟩
        (if c then serializeFq2Coord P.x
         else serializeFq2Coord P.x ++ serializeFq2Coord P.y) := by
  cases c <;> simp [serializeWithModeG2, hP]

theorem readG2Compressed_encode_inf {p : ℕ} [NeZero p] (hlt : p ≤ 2 ^ 381)
    (f : EncodingFlags) (hf : f.isInfinity = true) (a : Fq2 p) :
    readG2Compressed p (encodeFlags f (serializeFq2Coord a)) = .ok affZero := by
  have hdec := decodeFlags_encodeFlags_coord hlt f a []
  rw [List.append_nil] at hdec
  have hlen : (encodeFlags f (serializeFq2Coord a)).length = 96 := by
    rw [length_encodeFlags, length_serializeFq2Coord]
  rw [readG2Compressed, if_pos hlen, hdec]
  simp [hf]

theorem readG2Compressed_encode_fin {p : ℕ} (hp : p.Prime) (h4 : p % 4 = 3)
    (hlt : p ≤ 2 ^ 381) (f : EncodingFlags) (hf : f.isInfinity = false) (a y : Fq2 p)
    (hcv : a * a * a + ⟨4, 4⟩ = y * y) (hsign : f.isLexLargest = lexLargestFq2 y) :
    readG2Compressed p (encodeFlags f (serializeFq2Coord a)) = .ok ⟨a, y, false⟩ := by
  haveI : NeZero p := ⟨hp.ne_zero⟩
  have hdec := decodeFlags_encodeFlags_coord hlt f a []
  rw [List.append_nil] at hdec
  have hlen : (encodeFlags f (serializeFq2Coord a)).length = 96 := by
    rw [length_encodeFlags, length_serializeFq2Coord]
  rw [readG2Compressed, if_pos hlen, hdec]
  simp only [hf, Bool.false_eq_true, if_false, fq2OfBytes_serialize hlt, hcv, hsign,
    sqrtWithSignFq2_roundtrip hp h4 y]

theorem readG2Uncompressed_encode_inf {p : ℕ} [NeZero p] (hlt : p ≤ 2 ^ 381)
    (f : EncodingFlags) (hf : f.isInfinity = true) (a b : Fq2 p) :
    readG2Uncompressed p (encodeFlags f (serializeFq2Coord a ++ serializeFq2Coord b)) =
      .ok affZero := by
  have hdec := decodeFlags_encodeFlags_coord hlt f a (serializeFq2Coord b)
  have hlen : (encodeFlags f (serializeFq2Coord a ++ serializeFq2Coord b)).length = 192 := by
    rw [length_encodeFlags, List.length_append, length_serializeFq2Coord,
      length_serializeFq2Coord]
  rw [readG2Uncompressed, if_pos hlen, hdec]
  simp [hf]

theorem readG2Uncompressed_encode_fin {p : ℕ} [NeZero p] (hlt : p ≤ 2 ^ 381)
    (f : EncodingFlags) (hf : f.isInfinity = false) (a b : Fq2 p) :
    readG2Uncompressed p (encodeFlags f (serializeFq2Coord a ++ serializeFq2Coord b)) =
      .ok ⟨a, b, false⟩ := by
  have hdec := decodeFlags_encodeFlags_coord hlt f a (serializeFq2Coord b)
  have hlen : (encodeFlags f (serializeFq2Coord a ++ serializeFq2Coord b)).length = 192 := by
    rw [length_encodeFlags, List.length_append, length_serializeFq2Coord,
      length_serializeFq2Coord]
  have htake : (serializeFq2Coord a ++ serializeFq2Coord b).take 96 = serializeFq2Coord a :=
    List.take_left' (length_serializeFq2Coord a)
  have hdrop : (serializeFq2Coord a ++ serializeFq2Coord b).drop 96 = serializeFq2Coord b :=
    List.drop_left' (length_serializeFq2Coord a)
  rw [readG2Uncompressed, if_pos hlen, hdec]
  simp only [hf, Bool.false_eq_true, if_false, htake, hdrop, fq2OfBytes_serialize hlt]

theorem readG2_serialize {p : ℕ} (hp : p.Prime) (h4 : p % 4 = 3) (hlt : p ≤ 2 ^ 381)
    (P : Aff (Fq2 p)) (c : Bool)
    (hv : P = affZero ∨ (P.infinity = false ∧ onCurveG2 P)) :
    readG2 p c (serializeWithModeG2 P c) = .ok P := by
  haveI : NeZero p := ⟨hp.ne_zero⟩
  rcases hv with rfl | ⟨hinf, hcurve⟩
  · rw [serializeG2_inf _ rfl]
    cases c
    · rw [readG2, if_neg (by simp)]
      rw [show (if false = true then serializeFq2Coord (0 : Fq2 p)
          else serializeFq2Coord (0 : Fq2 p) ++ serializeFq2Coord (0 : Fq2 p)) =
          serializeFq2Coord (0 : Fq2 p) ++ serializeFq2Coord (0 : Fq2 p) by simp]
      exact readG2Uncompressed_encode_inf hlt _ rfl 0 0
    · rw [readG2, if_pos rfl]
      rw [show (if true = true then serializeFq2Coord (0 : Fq2 p)
          else serializeFq2Coord (0 : Fq2 p) ++ serializeFq2Coord (0 : Fq2 p)) =
          serializeFq2Coord (0 : Fq2 p) by simp]
      exact readG2Compressed_encode_inf hlt _ rfl 0
  · rw [serializeG2_fin _ hinf]
    cases c
    · rw [readG2, if_neg (by simp)]
      rw [show (if false = true then serializeFq2Coord P.x
          else serializeFq2Coord P.x ++ serializeFq2Coord P.y) =
          serializeFq2Coord P.x ++ serializeFq2Coord P.y by simp]
      rw [readG2Uncompressed_encode_fin hlt _ rfl P.x P.y]
      exact congrArg Except.ok (Aff.ext3 rfl rfl hinf.symm)
    · rw [readG2, if_pos rfl]
      rw [show (if true = true then serializeFq2Coord P.x
          else serializeFq2Coord P.x ++ serializeFq2Coord P.y) =
          serializeFq2Coord P.x by simp]
      rw [readG2Compressed_encode_fin hp h4 hlt _ rfl P.x P.y hcurve.symm rfl]
      exact congrArg Except.ok (Aff.ext3 rfl rfl hinf.symm)

/- ## BLS12-381 constants (lib.rs, mod.rs, g2.rs; BETA re-exported from the
external configuration) -/

/-- The BLS12-381 base-field modulus (lib.rs doc). -/
def blsP : ℕ := 4002409555221667393417789825735904156556882819939007885332058136124031650490837864442687629129015664037894272559787

/-- The BLS parameter X (mod.rs: X = [0xd201000000010000]). -/
def blsX : ℕ := 0xd201000000010000

/-- Modelled from the spec: the G1 cube-root-of-unity endomorphism
coefficient BETA re-exported by g1.rs from the external curve
configuration. -/
def blsBeta : ZMod blsP := 793479390729215512621379701633421447060886740281060493010456487427281649075476305620758731620350

/-- The psi x-coefficient (g2.rs P_POWER_ENDOMORPHISM_COEFF_0.c1). -/
def blsPsiX : ZMod blsP := 4002409555221667392624310435006688643935503118305586438271171395842971157480381377015405980053539358417135540939437

/-- The psi y-coefficient (g2.rs P_POWER_ENDOMORPHISM_COEFF_1). -/
def blsPsiY : Fq2 blsP :=
  ⟨2973677408986561043442465346520108879172042883009249989176415018091420807192182638567116318576472649347015917690530,
   1028732146235106349975324479215795277384839936929757896155643118032610843298655225875571310552543014690878354869257⟩

/- ## Compute-offload hook dispatch (mod.rs, g1.rs, g2.rs) -/

/-- Embedding of the g1.rs msm hook dispatch: a hook failure is masked to
an empty buffer by unwrap_or_default, and a decode failure yields Err(0).
The SCALE decoder is an abstract parameter (the hooks exchange serialized
buffers the core treats as opaque, spec §6). -/
def msmG1OnHook {α : Type} (dec : List ℕ → Option α) (hookRes : Option (List ℕ)) :
    Except ℕ α :=
  match dec (hookRes.getD []) with
  | some v => .ok v
  | none => .error 0

/-- Embedding of the g1.rs mul_projective hook dispatch: any failure (hook
or decode) yields the default zero value via unwrap_or_default. -/
def mulProjectiveG1OnHook {α : Type} (dec : List ℕ → Option α) (zero : α)
    (hookRes : Option (List ℕ)) : α :=
  (dec (hookRes.getD [])).getD zero

/-- Embedding of the g1.rs mul_affine hook dispatch (delegates to
mul_projective). -/
def mulAffineG1OnHook {α : Type} (dec : List ℕ → Option α) (zero : α)
    (hookRes : Option (List ℕ)) : α :=
  mulProjectiveG1OnHook dec zero hookRes

/-- Embedding of the g2.rs msm hook dispatch: the hook result is unwrapped
(a hook failure panics, modelled as none), then a decode failure yields
Err(0). -/
def msmG2OnHook {α : Type} (dec : List ℕ → Option α) (hookRes : Option (List ℕ)) :
    Option (Except ℕ α) :=
  match hookRes with
  | none => none
  | some bs =>
    some (match dec bs with
      | some v => .ok v
      | none => .error 0)

/-- Embedding of the g2.rs mul_projective / mul_affine hook dispatch: both
the hook result and the decode result are unwrapped, so either failure
panics (modelled as none). -/
def mulProjectiveG2OnHook {α : Type} (dec : List ℕ → Option α)
    (hookRes : Option (List ℕ)) : Option α :=
  hookRes.bind dec

/-- Embedding of the mod.rs multi_miller_loop hook dispatch: hook and
decode results are both unwrapped (panic on failure, modelled as none). -/
def multiMillerLoopOnHook {α : Type} (dec : List ℕ → Option α)
    (hookRes : Option (List ℕ)) : Option α :=
  hookRes.bind dec

/-- Embedding of the mod.rs final_exponentiation hook dispatch: the hook
result is unwrapped (panic on failure), while a decode failure is returned
as the None pairing output. -/
def finalExponentiationOnHook {α : Type} (dec : List ℕ → Option α)
    (hookRes : Option (List ℕ)) : Option (Option α) :=
  match hookRes with
  | none => none
  | some bs => some (dec bs)

/- ## Claim theorems -/

/-- C1: for every valid affine point P (the canonical point at infinity, or
a finite on-curve point accepted by the subgroup check) and both
compression modes, deserializing the bytes produced by serializing P with
validation enabled succeeds and returns a point equal to P.  Stated for
every prime modulus p congruent to 3 mod 4 of at most 381 bits and for all
subgroup-check parameters, which covers the BLS12-381 G1 and G2
instantiations. -/
theorem C1_serialize_deserialize_roundtrip (p : ℕ) (hp : p.Prime) (h4 : p % 4 = 3)
    (hlt : p ≤ 2 ^ 381) (beta : ZMod p) (X : ℕ) (xNeg : Bool) (psiX : ZMod p)
    (psiY : Fq2 p) :
    (∀ (P : Aff (ZMod p)) (c : Bool), validG1 beta X P →
      deserializeWithModeG1 beta X c true (serializeWithModeG1 P c) = .ok P) ∧
    (∀ (Q : Aff (Fq2 p)) (c : Bool), validG2 X xNeg psiX psiY Q →
      deserializeWithModeG2 X xNeg psiX psiY c true (serializeWithModeG2 Q c) = .ok Q) := by
  constructor
  · intro P c hv
    have hread : readG1 p c (serializeWithModeG1 P c) = .ok P :=
      readG1_serialize hp hlt P c
        (by rcases hv with h | ⟨h1, h2, _⟩; exact Or.inl h; exact Or.inr ⟨h1, h2⟩)
    have hcheck : isInCorrectSubgroupG1 beta X P = true := by
      rcases hv with rfl | ⟨_, _, h3⟩
      · exact isInCorrectSubgroupG1_affZero beta X
      · exact h3
    unfold deserializeWithModeG1
    rw [hread]
    simp [hcheck]
  · intro Q c hv
    have hread : readG2 p c (serializeWithModeG2 Q c) = .ok Q :=
      readG2_serialize hp h4 hlt Q c
        (by rcases hv with h | ⟨h1, h2, _⟩; exact Or.inl h; exact Or.inr ⟨h1, h2⟩)
    have hcheck : isInCorrectSubgroupG2 X xNeg psiX psiY Q = true := by
      rcases hv with rfl | ⟨_, _, h3⟩
      · exact isInCorrectSubgroupG2_affZero X xNeg psiX psiY
      · exact h3
    unfold deserializeWithModeG2
    rw [hread]
    simp [hcheck]

/-- Witness for C1 at the prime 7 with the point at infinity in compressed
mode. -/
theorem C1_serialize_deserialize_roundtrip_witness :
    Nat.Prime 7 ∧ (7 : ℕ) % 4 = 3 ∧ (7 : ℕ) ≤ 2 ^ 381 ∧
    validG1 (1 : ZMod 7) 3 (affZero : Aff (ZMod 7)) ∧
    validG2 3 true (0 : ZMod 7) (0 : Fq2 7) (affZero : Aff (Fq2 7)) ∧
    deserializeWithModeG1 (1 : ZMod 7) 3 true true
      (serializeWithModeG1 (affZero : Aff (ZMod 7)) true) = .ok affZero ∧
    deserializeWithModeG2 3 true (0 : ZMod 7) (0 : Fq2 7) true true
      (serializeWithModeG2 (affZero : Aff (Fq2 7)) true) = .ok affZero :=
  ⟨by decide, by decide, by decide, Or.inl rfl, Or.inl rfl,
    (C1_serialize_deserialize_roundtrip 7 (by decide) (by decide) (by decide)
      1 3 true 0 0).1 affZero true (Or.inl rfl),
    (C1_serialize_deserialize_roundtrip 7 (by decide) (by decide) (by decide)
      1 3 true 0 0).2 affZero true (Or.inl rfl)⟩

/-- C2: for every byte buffer that decodes to an on-curve point outside the
prime-order subgroup (as detected by the curve-specific endomorphism
check), deserialize_with_mode with Validate::Yes returns the InvalidData
error, and with Validate::No returns the point successfully; the subgroup
check is thus performed exactly when validation is requested.  Stated for
the BLS12-381 G1 and G2 instantiations. -/
theorem C2_subgroup_rejection :
    (∀ (buf : List ℕ) (c : Bool) (P : Aff (ZMod blsP)),
        readG1 blsP c buf = .ok P → onCurveG1 P →
        isInCorrectSubgroupG1 blsBeta blsX P = false →
        deserializeWithModeG1 blsBeta blsX c true buf = .error .invalidData ∧
        deserializeWithModeG1 blsBeta blsX c false buf = .ok P) ∧
    (∀ (buf : List ℕ) (c : Bool) (Q : Aff (Fq2 blsP)),
        readG2 blsP c buf = .ok Q → onCurveG2 Q →
        isInCorrectSubgroupG2 blsX true blsPsiX blsPsiY Q = false →
        deserializeWithModeG2 blsX true blsPsiX blsPsiY c true buf = .error .invalidData ∧
        deserializeWithModeG2 blsX true blsPsiX blsPsiY c false buf = .ok Q) := by
  constructor
  · intro buf c P hread hcurve hcheck
    constructor
    · unfold deserializeWithModeG1
      rw [hread]
      simp [hcheck]
    · unfold deserializeWithModeG1
      rw [hread]
      simp
  · intro buf c Q hread hcurve hcheck
    constructor
    · unfold deserializeWithModeG2
      rw [hread]
      simp [hcheck]
    · unfold deserializeWithModeG2
      rw [hread]
      simp

/-- C9: for BLS12-381 G1 and G2 the subgroup check accepts the point at
infinity; and the G1 check (for any modulus and parameters, covering the
BLS12-381 instantiation) rejects any non-infinity point fixed by the
X-multiplication map. -/
theorem C9_subgroup_check_infinity_and_fixed :
    isInCorrectSubgroupG1 blsBeta blsX (affZero : Aff (ZMod blsP)) = true ∧
    isInCorrectSubgroupG2 blsX true blsPsiX blsPsiY (affZero : Aff (Fq2 blsP)) = true ∧
    (∀ (p : ℕ) (beta : ZMod p) (X : ℕ) (P : Aff (ZMod p)),
        P.infinity = false → eqProjAff (mulBigintAff P X) P = true →
        isInCorrectSubgroupG1 beta X P = false) := by
  refine ⟨isInCorrectSubgroupG1_affZero _ _, isInCorrectSubgroupG2_affZero _ _ _ _, ?_⟩
  intro p beta X P hinf heq
  unfold isInCorrectSubgroupG1
  simp [heq, hinf]

/-- Witness for C9: over the prime 7 the point (1, 0) on the curve
y^2 = x^3 + 6 is a non-infinity fixed point of multiplication by 3, and the
check rejects it. -/
theorem C9_subgroup_check_witness :
    (⟨1, 0, false⟩ : Aff (ZMod 7)).infinity = false ∧
    eqProjAff (mulBigintAff (⟨1, 0, false⟩ : Aff (ZMod 7)) 3) ⟨1, 0, false⟩ = true ∧
    isInCorrectSubgroupG1 (1 : ZMod 7) 3 (⟨1, 0, false⟩ : Aff (ZMod 7)) = false :=
  ⟨rfl, by decide,
    C9_subgroup_check_infinity_and_fixed.2.2 7 1 3 ⟨1, 0, false⟩ rfl (by decide)⟩

instance instDecEqExcept {ε α : Type} [DecidableEq ε] [DecidableEq α] :
    DecidableEq (Except ε α) := fun x y =>
  match x, y with
  | .ok a, .ok b =>
    if h : a = b then .isTrue (by rw [h]) else .isFalse (fun hh => by cases hh; exact h rfl)
  | .error a, .error b =>
    if h : a = b then .isTrue (by rw [h]) else .isFalse (fun hh => by cases hh; exact h rfl)
  | .ok _, .error _ => .isFalse (fun hh => by cases hh)
  | .error _, .ok _ => .isFalse (fun hh => by cases hh)

instance instDecOnCurveG1 {p : ℕ} (P : Aff (ZMod p)) : Decidable (onCurveG1 P) :=
  inferInstanceAs (Decidable (P.y * P.y = P.x * P.x * P.x + 4))

instance instDecOnCurveG2 {p : ℕ} (P : Aff (Fq2 p)) : Decidable (onCurveG2 P) :=
  inferInstanceAs (Decidable (P.y * P.y = P.x * P.x * P.x + (⟨4, 4⟩ : Fq2 p)))

theorem blsP_le : blsP ≤ 2 ^ 381 := by decide

theorem blsP_ne_zero : blsP ≠ 0 := by decide

/-- The non-subgroup on-curve G1 point used as the C2 witness. -/
def q1Bls : Aff (ZMod blsP) :=
  ⟨4, 1630892974828014537729259858097113969650871260980656934049590190201941782487224876496582135785777461178964897591404, false⟩

/-- The non-subgroup on-curve G2 point used as the C2 witness. -/
def q2Bls : Aff (Fq2 blsP) :=
  ⟨⟨1, 1⟩,
   ⟨3690720871793337241455685075743049883097434000553861439128973496444191283866836383567731089800858963424329464681674,
    122693191027751655510194168700308213538794246775313976814212532628791625595109057816964505439501482194282347419502⟩,
   false⟩

set_option maxRecDepth 40000 in
/-- Witness for C2: concrete on-curve points outside the prime-order
subgroup, in uncompressed mode, for both G1 and G2. -/
theorem C2_subgroup_rejection_witness :
    readG1 blsP false (serializeWithModeG1 q1Bls false) = .ok q1Bls ∧
    onCurveG1 q1Bls ∧
    isInCorrectSubgroupG1 blsBeta blsX q1Bls = false ∧
    deserializeWithModeG1 blsBeta blsX false true (serializeWithModeG1 q1Bls false) =
      .error .invalidData ∧
    deserializeWithModeG1 blsBeta blsX false false (serializeWithModeG1 q1Bls false) =
      .ok q1Bls ∧
    readG2 blsP false (serializeWithModeG2 q2Bls false) = .ok q2Bls ∧
    onCurveG2 q2Bls ∧
    isInCorrectSubgroupG2 blsX true blsPsiX blsPsiY q2Bls = false ∧
    deserializeWithModeG2 blsX true blsPsiX blsPsiY false true
      (serializeWithModeG2 q2Bls false) = .error .invalidData ∧
    deserializeWithModeG2 blsX true blsPsiX blsPsiY false false
      (serializeWithModeG2 q2Bls false) = .ok q2Bls := by
  have h1 : readG1 blsP false (serializeWithModeG1 q1Bls false) = .ok q1Bls := by decide
  have h2 : onCurveG1 q1Bls := by decide
  have h3 : isInCorrectSubgroupG1 blsBeta blsX q1Bls = false := by decide
  have h4 := C2_subgroup_rejection.1 _ false q1Bls h1 h2 h3
  have h5 : readG2 blsP false (serializeWithModeG2 q2Bls false) = .ok q2Bls := by decide
  have h6 : onCurveG2 q2Bls := by decide
  have h7 : isInCorrectSubgroupG2 blsX true blsPsiX blsPsiY q2Bls = false := by decide
  have h8 := C2_subgroup_rejection.2 _ false q2Bls h5 h6 h7
  exact ⟨h1, h2, h3, h4.1, h4.2, h5, h6, h7, h8.1, h8.2⟩

set_option maxRecDepth 40000 in
/-- C4: serializing the point at infinity over BLS12-381, in either
compression mode and for both G1 and G2, yields a buffer whose decoded
flags are (compression mode, infinity set, lexicographic sign false) and
whose coordinate region is all-zero bytes. -/
theorem C4_infinity_serialization :
    ∀ c : Bool,
      decodeFlags (serializeWithModeG1 (affZero : Aff (ZMod blsP)) c) =
        (⟨c, true, false⟩, List.replicate (if c then 48 else 96) 0) ∧
      decodeFlags (serializeWithModeG2 (affZero : Aff (Fq2 blsP)) c) =
        (⟨c, true, false⟩, List.replicate (if c then 96 else 192) 0) := by
  decide

/-- C6: serialize_with_mode writes exactly serialized_size(compress) bytes
for every point (never depending on the point value), for every field
modulus; G2 sizes are 96 and 192 bytes, and uncompressed sizes are twice
the compressed ones for both groups. -/
theorem C6_serialized_size :
    ∀ (p : ℕ) (P : Aff (ZMod p)) (Q : Aff (Fq2 p)) (c : Bool),
      (serializeWithModeG1 P c).length = serializedSizeG1 c ∧
      (serializeWithModeG2 Q c).length = serializedSizeG2 c ∧
      serializedSizeG2 true = 96 ∧ serializedSizeG2 false = 192 ∧
      serializedSizeG1 false = 2 * serializedSizeG1 true ∧
      serializedSizeG2 false = 2 * serializedSizeG2 true := by
  intro p P Q c
  refine ⟨?_, ?_, rfl, rfl, rfl, rfl⟩
  · cases c <;> cases hP : P.infinity <;>
      simp [serializeWithModeG1, hP, length_encodeFlags, serializedSizeG1,
        length_serializeFq, affZero]
  · cases c <;> cases hP : Q.infinity <;>
      simp [serializeWithModeG2, hP, length_encodeFlags, serializedSizeG2,
        length_serializeFq2Coord, affZero]

/-- C7: for every non-infinity BLS12-381 G2 point and both modes, the
coordinate region of the serialized buffer (after clearing the flag bits)
holds the c1 component bytes first and the c0 component bytes second for
x, and likewise for y in uncompressed mode, each component 48 bytes. -/
theorem C7_g2_coordinate_order :
    ∀ (Q : Aff (Fq2 blsP)) (c : Bool), Q.infinity = false →
      (decodeFlags (serializeWithModeG2 Q c)).2.take 48 = serializeFq Q.x.c1 ∧
      ((decodeFlags (serializeWithModeG2 Q c)).2.drop 48).take 48 = serializeFq Q.x.c0 ∧
      (c = false →
        ((decodeFlags (serializeWithModeG2 Q c)).2.drop 96).take 48 = serializeFq Q.y.c1 ∧
        (decodeFlags (serializeWithModeG2 Q c)).2.drop 144 = serializeFq Q.y.c0) := by
  haveI : NeZero blsP := ⟨blsP_ne_zero⟩
  intro Q c hinf
  rw [serializeG2_fin Q hinf]
  cases c
  · rw [show (if false = true then serializeFq2Coord Q.x
        else serializeFq2Coord Q.x ++ serializeFq2Coord Q.y) =
        serializeFq2Coord Q.x ++ serializeFq2Coord Q.y by simp]
    rw [decodeFlags_encodeFlags_coord blsP_le]
    have hA := length_serializeFq Q.x.c1
    have hB := length_serializeFq Q.x.c0
    have hC := length_serializeFq Q.y.c1
    have hxy : (serializeFq2Coord Q.x).length = 96 := length_serializeFq2Coord Q.x
    refine ⟨?_, ?_, fun _ => ⟨?_, ?_⟩⟩
    · simp only [serializeFq2Coord, List.append_assoc]
      exact List.take_left' hA
    · simp only [serializeFq2Coord, List.append_assoc]
      rw [List.drop_left' hA]
      rw [show serializeFq Q.x.c0 ++ (serializeFq Q.y.c1 ++ serializeFq Q.y.c0) =
        serializeFq Q.x.c0 ++ (serializeFq Q.y.c1 ++ serializeFq Q.y.c0) from rfl]
      exact List.take_left' hB
    · rw [List.drop_left' hxy]
      simp only [serializeFq2Coord]
      exact List.take_left' hC
    · have h144 : (serializeFq2Coord Q.x ++ serializeFq Q.y.c1).length = 144 := by
        rw [List.length_append, hxy, hC]
      rw [show serializeFq2Coord Q.x ++ serializeFq2Coord Q.y =
        (serializeFq2Coord Q.x ++ serializeFq Q.y.c1) ++ serializeFq Q.y.c0 by
          simp [serializeFq2Coord, List.append_assoc]]
      exact List.drop_left' h144
  · rw [show (if true = true then serializeFq2Coord Q.x
        else serializeFq2Coord Q.x ++ serializeFq2Coord Q.y) = serializeFq2Coord Q.x
        by simp]
    have hdec : decodeFlags (encodeFlags ⟨true, false, lexLargestFq2 Q.y⟩
        (serializeFq2Coord Q.x)) = (⟨true, false, lexLargestFq2 Q.y⟩,
        serializeFq2Coord Q.x) := by
      have h := decodeFlags_encodeFlags_coord blsP_le ⟨true, false, lexLargestFq2 Q.y⟩
        Q.x []
      rwa [List.append_nil] at h
    rw [hdec]
    have hA := length_serializeFq Q.x.c1
    refine ⟨?_, ?_, fun hcf => by cases hcf⟩
    · simp only [serializeFq2Coord]
      exact List.take_left' hA
    · simp only [serializeFq2Coord]
      rw [List.drop_left' hA]
      rw [show serializeFq Q.x.c0 = serializeFq Q.x.c0 ++ [] from
        (List.append_nil _).symm]
      exact List.take_left' (length_serializeFq Q.x.c0)

/-- Witness for C7 at a concrete non-infinity point. -/
theorem C7_g2_coordinate_order_witness :
    (⟨⟨0, 0⟩, ⟨0, 0⟩, false⟩ : Aff (Fq2 blsP)).infinity = false ∧
    ((decodeFlags (serializeWithModeG2 (⟨⟨0, 0⟩, ⟨0, 0⟩, false⟩ : Aff (Fq2 blsP))
        false)).2.take 48 = serializeFq (0 : ZMod blsP)) :=
  ⟨rfl, by
    have h := (C7_g2_coordinate_order ⟨⟨0, 0⟩, ⟨0, 0⟩, false⟩ false rfl).1
    exact h⟩

/-- C8 counterexample: on a buffer whose first byte already has a flag bit
set (0x80), decoding after encoding does not recover the original flags
(the all-false flags come back with is_compressed true), so encode/decode
are not exact inverses on every byte buffer. -/
theorem C8_flags_roundtrip_cex :
    decodeFlags (encodeFlags ⟨false, false, false⟩ [128]) ≠
      (⟨false, false, false⟩, [128]) := by
  decide

/-- C8 (amended): for every non-empty byte buffer whose first byte has its
three high bits clear (it carries only coordinate bits) and every flag
combination, decoding the flags after encoding them recovers exactly the
same flags and leaves the coordinate bits of the first byte and all
remaining bytes unchanged. -/
theorem C8_flags_roundtrip (f : EncodingFlags) (b : ℕ) (rest : List ℕ) (hb : b < 32) :
    decodeFlags (encodeFlags f (b :: rest)) = (f, b :: rest) ∧
    (encodeFlags f (b :: rest)).tail = rest :=
  ⟨decodeFlags_encodeFlags f b rest hb, rfl⟩

/-- Witness for C8 at a concrete buffer and flag combination. -/
theorem C8_flags_roundtrip_witness :
    (5 : ℕ) < 32 ∧
    decodeFlags (encodeFlags ⟨true, true, true⟩ (5 :: [7])) =
      (⟨true, true, true⟩, 5 :: [7]) ∧
    (encodeFlags ⟨true, true, true⟩ (5 :: [7])).tail = [7] :=
  ⟨by decide, (C8_flags_roundtrip ⟨true, true, true⟩ 5 [7] (by decide)).1,
    (C8_flags_roundtrip ⟨true, true, true⟩ 5 [7] (by decide)).2⟩

/-- C3 counterexample: when the compute-offload hook signals failure (none)
and the decoder rejects the resulting empty buffer, the G1 mul_projective
dispatch returns the substituted default zero result (here 0) as a
successful value instead of surfacing a typed failure, and the G2
mul_projective dispatch panics (modelled none) instead of returning a
typed failure value; this refutes the claim that every hook failure is
surfaced as a typed failure with no panic or default substitution. -/
theorem C3_hook_failure_cex :
    mulProjectiveG1OnHook (fun _ : List ℕ => (none : Option ℕ)) 0 none = 0 ∧
    mulProjectiveG2OnHook (fun _ : List ℕ => (none : Option ℕ)) none = none := by
  exact ⟨rfl, rfl⟩

/-- C3 (amended): when a compute-offload hook signals failure, the actual
behavior is operation-specific: G1 msm surfaces Err(0); G1 mul_projective
and mul_affine substitute the default zero result; G2 msm,
G2 mul_projective/mul_affine and multi_miller_loop panic (modelled as
none); final_exponentiation panics on hook failure and surfaces a decode
failure as the None pairing output, while G2 msm surfaces a decode failure
as Err(0). -/
theorem C3_hook_failure_behavior {α : Type} (dec : List ℕ → Option α) (zero : α)
    (hdec : dec [] = none) :
    mulProjectiveG1OnHook dec zero none = zero ∧
    mulAffineG1OnHook dec zero none = zero ∧
    msmG1OnHook dec none = .error 0 ∧
    mulProjectiveG2OnHook dec none = none ∧
    msmG2OnHook dec none = none ∧
    multiMillerLoopOnHook dec none = none ∧
    finalExponentiationOnHook dec none = none ∧
    (∀ bs, dec bs = none →
      finalExponentiationOnHook dec (some bs) = some none ∧
      msmG2OnHook dec (some bs) = some (.error 0)) := by
  refine ⟨?_, ?_, ?_, rfl, rfl, rfl, rfl, ?_⟩
  · simp [mulProjectiveG1OnHook, hdec]
  · simp [mulAffineG1OnHook, mulProjectiveG1OnHook, hdec]
  · simp [msmG1OnHook, hdec]
  · intro bs hbs
    constructor
    · simp [finalExponentiationOnHook, hbs]
    · simp [msmG2OnHook, hbs]

/-- Witness for C3 (amended) with the always-failing decoder. -/
theorem C3_hook_failure_behavior_witness :
    (fun _ : List ℕ => (none : Option ℕ)) [] = none ∧
    mulProjectiveG1OnHook (fun _ : List ℕ => (none : Option ℕ)) 0 none = 0 ∧
    msmG1OnHook (fun _ : List ℕ => (none : Option ℕ)) none = .error 0 ∧
    msmG2OnHook (fun _ : List ℕ => (none : Option ℕ)) none = none :=
  ⟨rfl,
    (C3_hook_failure_behavior (fun _ : List ℕ => (none : Option ℕ)) 0 rfl).1,
    (C3_hook_failure_behavior (fun _ : List ℕ => (none : Option ℕ)) 0 rfl).2.2.1,
    (C3_hook_failure_behavior (fun _ : List ℕ => (none : Option ℕ)) 0 rfl).2.2.2.2.1⟩

/-- C10: for G1, whenever the hook fails (unwrap_or_default yields the
empty buffer, which the decoder rejects) or the hook returns bytes that do
not decode, mul_projective and mul_affine return the zero default rather
than an error, and msm returns Err(0). -/
theorem C10_g1_hook_fallback {α : Type} (dec : List ℕ → Option α) (zero : α)
    (hookRes : Option (List ℕ)) (hfail : dec (hookRes.getD []) = none) :
    mulProjectiveG1OnHook dec zero hookRes = zero ∧
    mulAffineG1OnHook dec zero hookRes = zero ∧
    msmG1OnHook dec hookRes = .error 0 := by
  refine ⟨?_, ?_, ?_⟩
  · simp [mulProjectiveG1OnHook, hfail]
  · simp [mulAffineG1OnHook, mulProjectiveG1OnHook, hfail]
  · simp [msmG1OnHook, hfail]

/-- Witness for C10 with a failing hook. -/
theorem C10_g1_hook_fallback_witness :
    (fun _ : List ℕ => (none : Option ℕ)) ((none : Option (List ℕ)).getD []) = none ∧
    mulProjectiveG1OnHook (fun _ : List ℕ => (none : Option ℕ)) 0 none = 0 ∧
    mulAffineG1OnHook (fun _ : List ℕ => (none : Option ℕ)) 0 none = 0 ∧
    msmG1OnHook (fun _ : List ℕ => (none : Option ℕ)) none = .error 0 :=
  ⟨rfl,
    (C10_g1_hook_fallback (fun _ : List ℕ => (none : Option ℕ)) 0 none rfl).1,
    (C10_g1_hook_fallback (fun _ : List ℕ => (none : Option ℕ)) 0 none rfl).2.1,
    (C10_g1_hook_fallback (fun _ : List ℕ => (none : Option ℕ)) 0 none rfl).2.2⟩
